import Mathlib

/-!
Shallow embedding of `scripts/optimization/analyse_EPS.py` (ca3net).

The script analyses EPSCs and EPSPs of a two-neuron circuit: it loads a
weight matrix, samples non-zero weights without replacement, runs one
fixed-duration paired-recording simulation per weight through the Brian2
engine, and extracts peak statistics.

Modelling conventions:
* Python floats are embedded as `ℚ` (the script performs only order
  comparisons, max, subtraction and unit rescaling, all exact here).
* A fallible Python expression is `Except PyError _`; `PyError` covers the
  exception classes the script can raise.
* The Brian2 differential-equation engine is external to the repository; it
  is embedded as an abstract `BrianEngine`: a pure function from the model
  inputs (synaptic weight, applied holding current, RNG state after the
  seeding performed by the script) and the sample time to the recorded
  membrane voltage (volts) and synaptic current (amps).
* `numpy`/`random` global RNG state is an explicit `RNGState` record
  threaded through the calls; `np.random.seed` / `random.seed` overwrite
  the respective component.
-/

/-- One millisecond in seconds (Brian2 unit constant `ms`). -/
def ms : ℚ := 1 / 1000

/-- One millivolt in volts (Brian2 unit constant `mV`). -/
def mV : ℚ := 1 / 1000

/-- One picoampere in amperes (Brian2 unit constant `pA`). -/
def pA : ℚ := 1 / 1000000000000

/-- `Vrest_PC = -75.1884554193901 * mV`: the defined resting potential
constant of the script.  Note the script's unclamped peak-extraction branch
instead references the name `Vrest_Pyr`, which is defined nowhere. -/
def Vrest_PC : ℚ := -(751884554193901 / 10000000000000) * mV

/-- Exceptions the script can raise. -/
inductive PyError where
  | assertionError (msg : String)
  | nameError (nm : String)
  | valueError (msg : String)
  | indexError
deriving DecidableEq, Repr

/-- Message of the first assertion in `get_peak_EPSP`. -/
def msgNeedVhold : String := "if I_hold is specified, V_hold has to be specified too"

/-- Message of the second assertion in `get_peak_EPSP` (typo as in source). -/
def msgNeedIhold : String := "If V_hold is specfied, I_hold should be too"

/-- Message of `numpy`'s `ValueError` for `np.max` of an empty array. -/
def msgEmptyMax : String := "zero-size array to reduction operation maximum which has no identity"

/-- Python truthiness of an optional float argument: `None` and `0.0` are
falsy, every other float is truthy (`if i_hold:` in the source). -/
def pyTruthy : Option ℚ → Bool
  | none => false
  | some x => x != 0

/-- `np.max` over a 1-D array: raises `ValueError` on an empty array,
otherwise folds `max` over the elements. -/
def np_max (xs : List ℚ) : Except PyError ℚ :=
  match xs with
  | [] => .error (.valueError msgEmptyMax)
  | x :: rest => .ok (rest.foldl max x)

/-- The elementwise condition `(250 < t_) & (t_ < 350)` of the source. -/
def windowPred (t : ℚ) : Bool := decide (250 < t) && decide (t < 350)

/-- Indices (from `k` upward) of the entries satisfying `windowPred`:
the recursion behind `np.where((250 < t_) & (t_ < 350))`. -/
def maskIdx : List ℚ → ℕ → List ℕ
  | [], _ => []
  | x :: rest, k =>
    if windowPred x then k :: maskIdx rest (k + 1) else maskIdx rest (k + 1)

/-- `np.where((250 < t_) & (t_ < 350))`: the indices of the samples inside
the (250 ms, 350 ms) window. -/
def np_where_window (t_ : List ℚ) : List ℕ := maskIdx t_ 0

/-- numpy integer fancy indexing `xs[idx]`: `IndexError` if any index is out
of bounds, otherwise the selected elements in index order. -/
def npIndex (xs : List ℚ) (idx : List ℕ) : Except PyError (List ℚ) :=
  if idx.all (fun i => decide (i < xs.length)) then
    .ok (idx.map (fun i => xs.getD i 0))
  else
    .error .indexError

/-- Specification-level description of `EPSP[np.where((250 < t_) & (t_ < 350))]`
for parallel arrays: the EPSP samples whose paired time lies in the window. -/
def windowSamples (t_ EPSP : List ℚ) : List ℚ :=
  ((t_.zip EPSP).filter (fun p => windowPred p.1)).map Prod.snd

/-- `get_peak_EPSP(t_, EPSP, i_hold=None, v_hold=None)` from the source.

Branch structure of the Python code, in order:
* `if i_hold:` (truthiness) — then `assert v_hold` (truthiness), then
  `return np.max(EPSP[np.where((250 < t_) & (t_ < 350))]) - v_hold`;
* `else:` — `assert i_hold is None`, then
  `return np.max(EPSP) - Vrest_Pyr/mV`, whose left operand `np.max(EPSP)`
  is evaluated first and whose right operand raises `NameError` because
  `Vrest_Pyr` is undefined (the defined constant is `Vrest_PC`). -/
def get_peak_EPSP (t_ EPSP : List ℚ) (i_hold v_hold : Option ℚ) : Except PyError ℚ :=
  if pyTruthy i_hold then
    if pyTruthy v_hold then
      match npIndex EPSP (np_where_window t_) with
      | .error e => .error e
      | .ok sel =>
        match np_max sel with
        | .error e => .error e
        | .ok m => .ok (m - v_hold.getD 0)
    else
      .error (.assertionError msgNeedVhold)
  else if i_hold = none then
    match np_max EPSP with
    | .error e => .error e
    | .ok _ => .error (.nameError "Vrest_Pyr")
  else
    .error (.assertionError msgNeedIhold)

/-! ## Elementary facts about `np_max` -/

theorem le_foldl_max (xs : List ℚ) : ∀ a : ℚ, a ≤ xs.foldl max a := by
  induction xs with
  | nil => intro a; simp
  | cons y ys ih =>
    intro a
    exact le_trans (le_max_left a y) (ih (max a y))

theorem mem_le_foldl_max (xs : List ℚ) :
    ∀ a : ℚ, ∀ x ∈ xs, x ≤ xs.foldl max a := by
  induction xs with
  | nil => intro a x hx; simp at hx
  | cons y ys ih =>
    intro a x hx
    rcases List.mem_cons.mp hx with h | h
    · subst h
      exact le_trans (le_max_right a x) (le_foldl_max ys (max a x))
    · exact ih (max a y) x h

theorem foldl_max_mem (xs : List ℚ) :
    ∀ a : ℚ, xs.foldl max a = a ∨ xs.foldl max a ∈ xs := by
  induction xs with
  | nil => intro a; left; rfl
  | cons y ys ih =>
    intro a
    rcases ih (max a y) with h | h
    · rcases max_choice a y with hm | hm
      · left; rw [List.foldl_cons, h, hm]
      · right; rw [List.foldl_cons, h, hm]; exact List.mem_cons_self y ys
    · right; exact List.mem_cons_of_mem y h

/-- `np_max` returns the maximum: a member of the list that bounds every
member from above. -/
theorem np_max_spec (xs : List ℚ) (m : ℚ) (h : np_max xs = .ok m) :
    m ∈ xs ∧ ∀ x ∈ xs, x ≤ m := by
  match xs with
  | [] => simp [np_max] at h
  | x :: rest =>
    simp only [np_max, Except.ok.injEq] at h
    subst h
    refine ⟨?_, ?_⟩
    · rcases foldl_max_mem rest x with h | h
      · rw [h]; exact List.mem_cons_self x rest
      · exact List.mem_cons_of_mem x h
    · intro y hy
      rcases List.mem_cons.mp hy with h | h
      · subst h; exact le_foldl_max rest y
      · exact mem_le_foldl_max rest x y h

/-- `np_max` succeeds exactly on non-empty input. -/
theorem np_max_ok_of_ne_nil (xs : List ℚ) (h : xs ≠ []) :
    ∃ m, np_max xs = .ok m := by
  match xs with
  | [] => exact absurd rfl h
  | x :: rest => exact ⟨rest.foldl max x, rfl⟩

/-! ## Fancy indexing with window indices equals filtering parallel arrays -/

theorem maskIdx_shift (xs : List ℚ) :
    ∀ k : ℕ, maskIdx xs (k + 1) = (maskIdx xs k).map (fun i => i + 1) := by
  induction xs with
  | nil => intro k; rfl
  | cons x rest ih =>
    intro k
    by_cases h : windowPred x = true
    · simp [maskIdx, h, ih (k + 1)]
    · simp [maskIdx, h, ih (k + 1)]

theorem all_lt_shift (idx : List ℕ) (n : ℕ) :
    ((idx.map (fun i => i + 1)).all (fun i => decide (i < n + 1))) =
      (idx.all (fun i => decide (i < n))) := by
  induction idx with
  | nil => rfl
  | cons i rest ih => simp [Nat.succ_lt_succ_iff, ih]

theorem getD_shift (idx : List ℕ) (e : ℚ) (es : List ℚ) :
    (idx.map (fun i => i + 1)).map (fun i => (e :: es).getD i 0) =
      idx.map (fun i => es.getD i 0) := by
  induction idx with
  | nil => rfl
  | cons i rest ih => simp [ih, List.getD_cons_succ]

/-- For parallel arrays (equal lengths), `EPSP[np.where((250 < t_) & (t_ < 350))]`
succeeds and selects exactly the EPSP samples whose paired time lies strictly
between 250 and 350. -/
theorem npIndex_window (t_ EPSP : List ℚ) (h : t_.length = EPSP.length) :
    npIndex EPSP (np_where_window t_) = .ok (windowSamples t_ EPSP) := by
  induction t_ generalizing EPSP with
  | nil =>
    have : EPSP = [] := by
      cases EPSP with
      | nil => rfl
      | cons e es => simp at h
    subst this
    rfl
  | cons t ts ih =>
    cases EPSP with
    | nil => simp at h
    | cons e es =>
      have h' : ts.length = es.length := by simpa using h
      have IH := ih es h'
      simp only [np_where_window, maskIdx] at IH ⊢
      rw [maskIdx_shift]
      simp only [npIndex, List.length_cons] at IH ⊢
      by_cases hall : ((maskIdx ts 0).all fun i => decide (i < es.length)) = true
      · simp only [hall, if_true, Except.ok.injEq] at IH
        have hshift : ((List.map (fun i => i + 1) (maskIdx ts 0)).all
            fun i => decide (i < es.length + 1)) = true := by
          rw [all_lt_shift]; exact hall
        have hmap : List.map (fun i => (e :: es).getD i 0)
            (List.map (fun i => i + 1) (maskIdx ts 0)) = windowSamples ts es := by
          rw [getD_shift, IH]
        by_cases hp : windowPred t = true
        · simp only [if_pos hp]
          have hcons : ((0 :: List.map (fun i => i + 1) (maskIdx ts 0)).all
              fun i => decide (i < es.length + 1)) = true := by
            rw [List.all_cons, hshift]
            simp
          rw [if_pos hcons, List.map_cons, hmap]
          simp [windowSamples, hp]
        · simp only [if_neg hp]
          rw [if_pos hshift, hmap]
          simp [windowSamples, hp]
      · simp [hall] at IH

/-- A window hit in the time array yields a non-empty selection (parallel arrays). -/
theorem windowSamples_ne_nil (t_ : List ℚ) :
    ∀ EPSP : List ℚ, t_.length = EPSP.length → (∃ t ∈ t_, windowPred t = true) →
      windowSamples t_ EPSP ≠ [] := by
  induction t_ with
  | nil =>
    intro EPSP _ hex
    simp at hex
  | cons t ts ih =>
    intro EPSP hlen hex
    cases EPSP with
    | nil => simp at hlen
    | cons e es =>
      by_cases hp : windowPred t = true
      · simp [windowSamples, hp]
      · obtain ⟨u, hu, hup⟩ := hex
        rcases List.mem_cons.mp hu with rfl | hu'
        · exact absurd hup hp
        · have h' : ts.length = es.length := by simpa using hlen
          have hne := ih es h' ⟨u, hu', hup⟩
          simpa [windowSamples, hp] using hne

/-- C2: with both `i_hold` and `v_hold` supplied and truthy, `get_peak_EPSP`
returns the maximum of the EPSP samples at times strictly between 250 and
350 ms, minus `v_hold`, provided the time array has a sample in that window
(arrays of one recording have equal length). -/
theorem get_peak_EPSP_clamped (t_ EPSP : List ℚ) (ihold vhold : ℚ)
    (hlen : t_.length = EPSP.length) (hi : ihold ≠ 0) (hv : vhold ≠ 0)
    (hwin : ∃ t ∈ t_, 250 < t ∧ t < 350) :
    ∃ m, get_peak_EPSP t_ EPSP (some ihold) (some vhold) = .ok (m - vhold) ∧
      m ∈ windowSamples t_ EPSP ∧ ∀ x ∈ windowSamples t_ EPSP, x ≤ m := by
  have hex : ∃ t ∈ t_, windowPred t = true := by
    obtain ⟨t, ht, h1, h2⟩ := hwin
    exact ⟨t, ht, by simp [windowPred, h1, h2]⟩
  have hne := windowSamples_ne_nil t_ EPSP hlen hex
  obtain ⟨m, hm⟩ := np_max_ok_of_ne_nil _ hne
  have hspec := np_max_spec _ _ hm
  refine ⟨m, ?_, hspec.1, hspec.2⟩
  have hti : pyTruthy (some ihold) = true := by simp [pyTruthy, hi]
  have htv : pyTruthy (some vhold) = true := by simp [pyTruthy, hv]
  unfold get_peak_EPSP
  rw [if_pos hti, if_pos htv, npIndex_window t_ EPSP hlen]
  simp [hm]

theorem get_peak_EPSP_clamped_witness :
    ∃ m, get_peak_EPSP [300] [-65] (some 1) (some (-70)) = .ok (m - (-70)) ∧
      m ∈ windowSamples [300] [-65] ∧ ∀ x ∈ windowSamples [300] [-65], x ≤ m :=
  get_peak_EPSP_clamped [300] [-65] 1 (-70) rfl (by norm_num) (by norm_num)
    ⟨300, by simp, by norm_num, by norm_num⟩

/-- C1: a call supplying only `v_hold` (with `i_hold = None`) does not raise
an `AssertionError` — the else-branch assertion `assert i_hold is None`
passes, and the call fails with `NameError` on `Vrest_Pyr` instead.  This
contradicts the intent documented in the assertion's own message
`"If V_hold is specfied, I_hold should be too"`. -/
theorem get_peak_EPSP_vhold_only_no_assertion :
    get_peak_EPSP [300] [-65] none (some (-70)) = .error (.nameError "Vrest_Pyr") ∧
    ∀ msg, get_peak_EPSP [300] [-65] none (some (-70)) ≠ .error (.assertionError msg) := by
  have hval : get_peak_EPSP [300] [-65] none (some (-70)) =
      .error (.nameError "Vrest_Pyr") := rfl
  refine ⟨hval, fun msg h => ?_⟩
  rw [hval] at h
  simp at h

/-- C8 counterexample: with `i_hold` and `v_hold` both absent and an empty
EPSP array, the branch raises `ValueError` from `np.max`, not `NameError`. -/
theorem get_peak_EPSP_empty_unclamped :
    get_peak_EPSP [] [] none none = .error (.valueError msgEmptyMax) ∧
    get_peak_EPSP [] [] none none ≠ .error (.nameError "Vrest_Pyr") := by
  have hval : get_peak_EPSP [] [] none none = .error (.valueError msgEmptyMax) := rfl
  refine ⟨hval, fun h => ?_⟩
  rw [hval] at h
  simp at h

/-- C8 (amended): with `i_hold = None` and `v_hold` absent, the branch
raises `NameError` on `Vrest_Pyr` whenever the EPSP array is non-empty
(`np.max` of an empty array raises `ValueError` first), and in no case does
it return a value. -/
theorem get_peak_EPSP_unclamped_branch (t_ EPSP : List ℚ) :
    (EPSP ≠ [] → get_peak_EPSP t_ EPSP none none = .error (.nameError "Vrest_Pyr")) ∧
    ∀ r : ℚ, get_peak_EPSP t_ EPSP none none ≠ .ok r := by
  constructor
  · intro hne
    obtain ⟨m, hm⟩ := np_max_ok_of_ne_nil EPSP hne
    unfold get_peak_EPSP
    simp [pyTruthy, hm]
  · intro r h
    unfold get_peak_EPSP at h
    simp only [pyTruthy, Bool.false_eq_true, if_false, if_pos rfl] at h
    cases hnm : np_max EPSP with
    | error e => rw [hnm] at h; exact Except.noConfusion h
    | ok m => rw [hnm] at h; exact Except.noConfusion h

theorem get_peak_EPSP_unclamped_branch_witness :
    get_peak_EPSP [300] [-65] none none = .error (.nameError "Vrest_Pyr") :=
  (get_peak_EPSP_unclamped_branch [300] [-65]).1 (by simp)

/-! ## The paired-recording simulation -/

/-- Global random-number-generator state of the process: the `numpy` global
RNG and the Python `random` module RNG, as abstract states. -/
structure RNGState where
  np : ℕ
  py : ℕ
deriving DecidableEq, Repr

/-- `np.random.seed(seed)`: overwrites the numpy RNG state with a state
determined by `seed` alone, discarding the previous state. -/
def np_random_seed (seed : ℕ) (s : RNGState) : RNGState := { s with np := seed }

/-- `random.seed(seed)` (python `random` module): overwrites the python RNG
state with a state determined by `seed` alone. -/
def pyrandom_seed (seed : ℕ) (s : RNGState) : RNGState := { s with py := seed }

/-- The RNG state every call of `sym_paired_recording` establishes before
building the network: both generators seeded with 12345. -/
def seededState : RNGState := ⟨12345, 12345⟩

/-- `run(10*ms)`: simulated duration, in seconds, before the holding
current is switched on. -/
def run1_duration_s : ℚ := 10 * ms

/-- `run(390*ms)`: simulated duration, in seconds, with the holding current
applied. -/
def run2_duration_s : ℚ := 390 * ms

/-- `StateMonitor(..., dt=0.1*ms)`: recording period, in seconds. -/
def monitor_dt_s : ℚ := (1 / 10) * ms

/-- Number of samples the monitor records over the 400 ms of simulation at
one sample per 0.1 ms time step (recorded at the start of each step):
`(10 ms + 390 ms) / 0.1 ms = 4000`. -/
def n_samples : ℕ := 4000

/-- Width hard-coded in the main block: `np.zeros((n, 4000))`
("4000 is hard coded for sim length"). -/
def hardCodedSimWidth : ℕ := 4000

/-- The monitor's sample times in seconds: `StateM_PC.t_`. -/
def sampleTimes_s : List ℚ :=
  (List.range n_samples).map (fun k : ℕ => (k : ℚ) * monitor_dt_s)

/-- The holding current (amperes) flowing into the postsynaptic cell during
the second `run`: `if i_hold: PC.I = i_hold * pA` — skipped (leaving the
initial `I = 0`) when `i_hold` is `None` or `0`. -/
def appliedI (i_hold : Option ℚ) : ℚ :=
  if pyTruthy i_hold then i_hold.getD 0 * pA else 0

/-- The Brian2 differential-equation engine, abstracted as a pure function.
The repository delegates ODE solving, event scheduling and spike delivery
to Brian2; given the network of the script (one AdExpIF cell `PC`, the
spike generator firing at 250 ms, the synapse with the given weight, the
holding current applied from 10 ms on) and the RNG state at network build
time, the engine determines the membrane voltage `vm` (volts) and synaptic
current `EPSC` (amperes) at each sample time (seconds), and the RNG state
after the run. -/
structure BrianEngine where
  vm : ℚ → ℚ → RNGState → ℚ → ℚ
  epsc : ℚ → ℚ → RNGState → ℚ → ℚ
  rngAfter : ℚ → ℚ → RNGState → RNGState

/-- The three arrays returned by `sym_paired_recording`. -/
structure Traces where
  t_ : List ℚ
  EPSP : List ℚ
  EPSC : List ℚ
deriving DecidableEq, Repr

/-- `sym_paired_recording(weight, i_hold=None)` from the source: reseeds
both global RNGs to 12345, builds the two-cell network, runs 10 ms, applies
the holding current `i_hold * pA` if `i_hold` is truthy, runs 390 ms, and
returns `(StateM_PC.t_ * 1000, StateM_PC[0].vm/mV, StateM_PC[0].EPSC/pA)`:
time in ms, EPSP in mV, EPSC in pA. -/
def sym_paired_recording (E : BrianEngine) (weight : ℚ) (i_hold : Option ℚ)
    (s : RNGState) : Traces × RNGState :=
  let s1 := pyrandom_seed 12345 (np_random_seed 12345 s)
  let iapp := appliedI i_hold
  ({ t_ := sampleTimes_s.map (fun t => t * 1000),
     EPSP := sampleTimes_s.map (fun t => E.vm weight iapp s1 t / mV),
     EPSC := sampleTimes_s.map (fun t => E.epsc weight iapp s1 t / pA) },
   E.rngAfter weight iapp s1)

/-- The per-trial loop of the main block: for each sampled weight, run
`sym_paired_recording(weight, i_hold)` (threading the global RNG state) and
collect the trials' traces. -/
def runTrials (E : BrianEngine) (i_hold : ℚ) : List ℚ → RNGState → List Traces
  | [], _ => []
  | w :: ws, s =>
    let r := sym_paired_recording E w (some i_hold) s
    r.1 :: runTrials E i_hold ws r.2

/-- `peak_EPSCs[i] = np.max(EPSC)` of the main loop: the per-trial peak
EPSC summary statistic. -/
def peak_EPSCs (trials : List Traces) : List (Except PyError ℚ) :=
  trials.map (fun tr => np_max tr.EPSC)

/-- A concrete engine instance (identically-zero solutions), used to
instantiate theorems at concrete inputs. -/
def testEngine : BrianEngine :=
  ⟨fun _ _ _ _ => 0, fun _ _ _ _ => 0, fun _ _ s => s⟩

/-- A concrete incoming RNG state. -/
def rng0 : RNGState := ⟨0, 0⟩

/-- C5: `sym_paired_recording` is deterministic in the incoming global RNG
state: both generators are reseeded to 12345 at the start of every call, so
two calls with the same weight and `i_hold` return identical results
whatever random state earlier trials left behind. -/
theorem sym_paired_recording_deterministic (E : BrianEngine) (weight : ℚ)
    (i_hold : Option ℚ) (s1 s2 : RNGState) :
    sym_paired_recording E weight i_hold s1 = sym_paired_recording E weight i_hold s2 ∧
    pyrandom_seed 12345 (np_random_seed 12345 s1) = seededState := by
  exact ⟨rfl, rfl⟩

/-- C7: every call simulates 10 ms + 390 ms = 400 ms recorded at a 0.1 ms
period, so the three returned arrays all have `n_samples = 4000` entries,
the width hard-coded for the per-trial result matrices in the main block. -/
theorem sym_paired_recording_fixed_length (E : BrianEngine) (weight : ℚ)
    (i_hold : Option ℚ) (s : RNGState) :
    ((sym_paired_recording E weight i_hold s).1.t_.length = n_samples ∧
     (sym_paired_recording E weight i_hold s).1.EPSP.length = n_samples ∧
     (sym_paired_recording E weight i_hold s).1.EPSC.length = n_samples) ∧
    (n_samples : ℚ) * monitor_dt_s = run1_duration_s + run2_duration_s ∧
    n_samples = hardCodedSimWidth := by
  refine ⟨⟨?_, ?_, ?_⟩, ?_, rfl⟩
  · simp only [sym_paired_recording]
    rw [List.length_map, sampleTimes_s, List.length_map, List.length_range]
  · simp only [sym_paired_recording]
    rw [List.length_map, sampleTimes_s, List.length_map, List.length_range]
  · simp only [sym_paired_recording]
    rw [List.length_map, sampleTimes_s, List.length_map, List.length_range]
  · simp only [n_samples, monitor_dt_s, run1_duration_s, run2_duration_s, ms]
    norm_num

/-- C9: a zero holding current is treated as not supplied, because both
functions test `i_hold` by truthiness: `sym_paired_recording` with
`i_hold = 0` behaves exactly as with `i_hold = None` (the clamping branch is
skipped), and `get_peak_EPSP` with `i_hold = 0` raises the `AssertionError`
of the else branch (`assert i_hold is None` fails on `0`) even when
`v_hold` is supplied. -/
theorem zero_i_hold_treated_as_absent :
    (∀ (E : BrianEngine) (weight : ℚ) (s : RNGState),
      sym_paired_recording E weight (some 0) s = sym_paired_recording E weight none s) ∧
    (∀ (t_ EPSP : List ℚ) (v : ℚ),
      get_peak_EPSP t_ EPSP (some 0) (some v) = .error (.assertionError msgNeedIhold)) := by
  constructor
  · intro E weight s
    have happ : appliedI (some 0) = appliedI none := by simp [appliedI, pyTruthy]
    simp [sym_paired_recording, happ]
  · intro t_ EPSP v
    rfl

theorem getD_map_range (f : ℕ → ℚ) (n k : ℕ) (hk : k < n) :
    ((List.range n).map f).getD k 0 = f k := by
  rw [List.getD_eq_getElem _ _ (by simpa using hk)]
  simp

theorem sampleTimes_map_getD (g : ℚ → ℚ) (k : ℕ) (hk : k < n_samples) :
    (sampleTimes_s.map g).getD k 0 = g ((k : ℚ) * monitor_dt_s) := by
  rw [sampleTimes_s, List.map_map]
  exact getD_map_range _ _ _ hk

/-- C10: the returned arrays are unit-stripped and rescaled — sample `k` of
the time axis is the monitor time in seconds times 1000 (ms), the EPSP
trace is the engine's membrane voltage divided by `mV`, the EPSC trace is
the engine's synaptic current divided by `pA` — and on this ms time axis
the `250 < t < 350` window test selects exactly the samples
`2500 < k < 3500`. -/
theorem sym_paired_recording_units (E : BrianEngine) (weight : ℚ)
    (i_hold : Option ℚ) (s : RNGState) (k : ℕ) (hk : k < n_samples) :
    ((sym_paired_recording E weight i_hold s).1.t_.getD k 0 =
        ((k : ℚ) * monitor_dt_s) * 1000) ∧
    ((sym_paired_recording E weight i_hold s).1.EPSP.getD k 0 =
        E.vm weight (appliedI i_hold) seededState ((k : ℚ) * monitor_dt_s) / mV) ∧
    ((sym_paired_recording E weight i_hold s).1.EPSC.getD k 0 =
        E.epsc weight (appliedI i_hold) seededState ((k : ℚ) * monitor_dt_s) / pA) ∧
    ((250 < (sym_paired_recording E weight i_hold s).1.t_.getD k 0 ∧
        (sym_paired_recording E weight i_hold s).1.t_.getD k 0 < 350) ↔
      (2500 < k ∧ k < 3500)) := by
  have ht : (sym_paired_recording E weight i_hold s).1.t_.getD k 0 =
      ((k : ℚ) * monitor_dt_s) * 1000 := by
    simp only [sym_paired_recording]
    exact sampleTimes_map_getD _ k hk
  refine ⟨ht, ?_, ?_, ?_⟩
  · simp only [sym_paired_recording]
    exact sampleTimes_map_getD _ k hk
  · simp only [sym_paired_recording]
    exact sampleTimes_map_getD _ k hk
  · rw [ht]
    simp only [monitor_dt_s, ms]
    constructor
    · rintro ⟨ha, hb⟩
      have ha' : (2500 : ℚ) < (k : ℚ) := by linarith
      have hb' : ((k : ℚ)) < 3500 := by linarith
      exact ⟨by exact_mod_cast ha', by exact_mod_cast hb'⟩
    · rintro ⟨ha, hb⟩
      have ha' : (2500 : ℚ) < (k : ℚ) := by exact_mod_cast ha
      have hb' : ((k : ℚ)) < 3500 := by exact_mod_cast hb
      exact ⟨by linarith, by linarith⟩

theorem sym_paired_recording_units_witness :
    (250 < (sym_paired_recording testEngine 1 none rng0).1.t_.getD 3000 0 ∧
      (sym_paired_recording testEngine 1 none rng0).1.t_.getD 3000 0 < 350) ↔
      (2500 < 3000 ∧ 3000 < 3500) :=
  (sym_paired_recording_units testEngine 1 none rng0 3000 (by norm_num [n_samples])).2.2.2

theorem runTrials_EPSC_ne_nil (E : BrianEngine) (i_hold : ℚ) :
    ∀ (ws : List ℚ) (s : RNGState) (tr : Traces),
      tr ∈ runTrials E i_hold ws s → tr.EPSC ≠ [] := by
  intro ws
  induction ws with
  | nil =>
    intro s tr h
    simp [runTrials] at h
  | cons w ws ih =>
    intro s tr h
    simp only [runTrials] at h
    rcases List.mem_cons.mp h with rfl | h'
    · intro hnil
      have hlen := congrArg List.length hnil
      simp only [sym_paired_recording] at hlen
      rw [List.length_map, sampleTimes_s, List.length_map, List.length_range,
        List.length_nil] at hlen
      simp [n_samples] at hlen
    · exact ih _ tr h'

/-- C6: the per-trial peak-EPSC summary statistic of the main loop is the
maximum of that trial's entire EPSC time series: a member of the series
bounding every sample, with no window restriction and no baseline
subtraction. -/
theorem peak_EPSC_is_global_max (E : BrianEngine) (i_hold : ℚ) (ws : List ℚ)
    (s : RNGState) (tr : Traces) (htr : tr ∈ runTrials E i_hold ws s) :
    ∃ m, np_max tr.EPSC = .ok m ∧
      .ok m ∈ peak_EPSCs (runTrials E i_hold ws s) ∧
      m ∈ tr.EPSC ∧ ∀ x ∈ tr.EPSC, x ≤ m := by
  have hne := runTrials_EPSC_ne_nil E i_hold ws s tr htr
  obtain ⟨m, hm⟩ := np_max_ok_of_ne_nil _ hne
  refine ⟨m, hm, ?_, (np_max_spec _ _ hm).1, (np_max_spec _ _ hm).2⟩
  have hmem := List.mem_map_of_mem (fun tr : Traces => np_max tr.EPSC) htr
  simp only [peak_EPSCs]
  simpa [hm] using hmem

theorem peak_EPSC_is_global_max_witness :
    ∃ m, np_max ((sym_paired_recording testEngine 1 (some 1) rng0).1).EPSC = .ok m ∧
      .ok m ∈ peak_EPSCs (runTrials testEngine 1 [1] rng0) ∧
      m ∈ ((sym_paired_recording testEngine 1 (some 1) rng0).1).EPSC ∧
      ∀ x ∈ ((sym_paired_recording testEngine 1 (some 1) rng0).1).EPSC, x ≤ m :=
  peak_EPSC_is_global_max testEngine 1 [1] rng0 _ (by simp [runTrials])

/-! ## CLI argument handling of the main block -/

/-- Whitespace accepted around a Python `int(...)` string literal. -/
def isPySpace (c : Char) : Bool :=
  c = ' ' || c = '\t' || c = '\n' || c = '\r' || c = '\x0b' || c = '\x0c'

/-- Numeric value of a decimal digit character. -/
def digitVal (c : Char) : ℕ := c.toNat - '0'.toNat

/-- Value of a non-empty all-digit character run, `none` otherwise. -/
def parseDigits (cs : List Char) : Option ℕ :=
  match cs with
  | [] => none
  | _ =>
    if cs.all Char.isDigit then
      some (cs.foldl (fun a c => 10 * a + digitVal c) 0)
    else
      none

/-- Body of a Python decimal integer literal: optional sign, then digits. -/
def pyIntLiteral (cs : List Char) : Option ℤ :=
  match cs with
  | '+' :: rest => (parseDigits rest).map (fun n => (n : ℤ))
  | '-' :: rest => (parseDigits rest).map (fun n => -(n : ℤ))
  | _ => (parseDigits cs).map (fun n => (n : ℤ))

/-- Python 2 `int(s)` for a decimal string: strips surrounding whitespace,
then parses an optionally-signed digit run; `none` models `ValueError`. -/
def pyInt (s : String) : Option ℤ :=
  pyIntLiteral (((s.data.dropWhile isPySpace).reverse.dropWhile isPySpace).reverse)

/-- `try: n = int(sys.argv[1]) / except: n = 500` of the main block: the
argument is `none` when `sys.argv[1]` is absent (`IndexError`), and the
bare `except` also catches the `ValueError` of a malformed literal. -/
def argN (argv1 : Option String) : ℤ :=
  match argv1 with
  | none => 500
  | some s =>
    match pyInt s with
    | none => 500
    | some k => k

/-- C3: the number of weight samples falls back to the default 500 when the
first CLI positional argument is absent or fails to parse as an integer,
and is the parsed integer otherwise. -/
theorem argN_default_or_parsed :
    argN none = 500 ∧
    (∀ s : String, pyInt s = none → argN (some s) = 500) ∧
    (∀ (s : String) (k : ℤ), pyInt s = some k → argN (some s) = k) := by
  refine ⟨rfl, ?_, ?_⟩
  · intro s h
    simp [argN, h]
  · intro s k h
    simp [argN, h]

theorem argN_default_or_parsed_witness :
    (pyInt "abc" = none ∧ argN (some "abc") = 500) ∧
    (pyInt "42" = some 42 ∧ argN (some "42") = 42) ∧
    argN none = 500 :=
  ⟨⟨rfl, argN_default_or_parsed.2.1 "abc" rfl⟩,
   ⟨rfl, argN_default_or_parsed.2.2 "42" 42 rfl⟩,
   argN_default_or_parsed.1⟩

/-! ## Weight sampling of the main block -/

/-- `wmx_PC_E[np.nonzero(wmx_PC_E)]`: the non-zero entries of the weight
matrix, in row-major order. -/
def nonzero_weights (wmx : List (List ℚ)) : List ℚ :=
  wmx.flatten.filter (fun x => x != 0)

/-- `np.random.choice(pool, n, replace=False)` (numpy, external to this
repository), by its documented contract: the call draws `n` entries of
`pool` at pairwise-distinct positions (sampling without replacement); which
positions are drawn depends only on the numpy RNG state.  A value of this
structure records the positions drawn by one such call. -/
structure NpChoiceNoReplace (pool : List ℚ) (n : ℕ) where
  idx : List ℕ
  idx_len : idx.length = n
  idx_lt : ∀ i ∈ idx, i < pool.length
  idx_nodup : idx.Nodup

/-- The array returned by the `np.random.choice` call: the pool entries at
the drawn positions, in draw order. -/
def NpChoiceNoReplace.sample {pool : List ℚ} {n : ℕ}
    (c : NpChoiceNoReplace pool n) : List ℚ :=
  c.idx.map (fun i => pool.getD i 0)

theorem count_eq_length_filter_range (pool : List ℚ) (w : ℚ) :
    pool.count w = ((List.range pool.length).filter
      (fun j => pool.getD j 0 == w)).length := by
  induction pool with
  | nil => rfl
  | cons x rest ih =>
    have hshift : List.countP ((fun j => (x :: rest).getD j 0 == w) ∘ Nat.succ)
        (List.range rest.length) =
        List.countP (fun j => rest.getD j 0 == w) (List.range rest.length) := by
      apply List.countP_congr
      intro j _
      simp [Function.comp, List.getD_cons_succ]
    rw [List.length_cons, List.range_succ_eq_map, List.filter_cons]
    simp only [List.getD_cons_zero]
    by_cases hx : (x == w) = true
    · rw [if_pos hx, List.length_cons, ← List.countP_eq_length_filter, List.countP_map,
        hshift, List.countP_eq_length_filter, ← ih, List.count_cons, hx]
      simp
    · rw [if_neg hx, ← List.countP_eq_length_filter, List.countP_map,
        hshift, List.countP_eq_length_filter, ← ih, List.count_cons]
      simp [hx]

theorem nodup_subset_length_le (l1 l2 : List ℕ) (h1 : l1.Nodup) (hsub : l1 ⊆ l2) :
    l1.length ≤ l2.length := by
  calc l1.length = l1.toFinset.card := (List.toFinset_card_of_nodup h1).symm
    _ ≤ l2.toFinset.card := Finset.card_le_card (fun x hx => by
        rw [List.mem_toFinset] at *
        exact hsub hx)
    _ ≤ l2.length := l2.toFinset_card_le

/-- C4: the trial weights are drawn at pairwise-distinct positions from
exactly the non-zero entries of the weight matrix: the sample has the
requested size, every sampled weight is a non-zero entry of the matrix, and
no pool entry is drawn more often than it occurs in the pool. -/
theorem sampled_weights_from_nonzero (wmx : List (List ℚ)) (n : ℕ)
    (c : NpChoiceNoReplace (nonzero_weights wmx) n) :
    c.sample.length = n ∧
    (∀ w ∈ c.sample, w ≠ 0 ∧ w ∈ wmx.flatten) ∧
    (∀ w : ℚ, c.sample.count w ≤ (nonzero_weights wmx).count w) := by
  refine ⟨?_, ?_, ?_⟩
  · rw [NpChoiceNoReplace.sample, List.length_map, c.idx_len]
  · intro w hw
    rw [NpChoiceNoReplace.sample, List.mem_map] at hw
    obtain ⟨i, hi, hiw⟩ := hw
    have hlt := c.idx_lt i hi
    have hmem : w ∈ nonzero_weights wmx := by
      rw [← hiw, List.getD_eq_getElem _ _ hlt]
      exact List.getElem_mem hlt
    rw [nonzero_weights, List.mem_filter] at hmem
    exact ⟨by simpa using hmem.2, hmem.1⟩
  · intro w
    rw [NpChoiceNoReplace.sample]
    have h1 : (c.idx.map (fun i => (nonzero_weights wmx).getD i 0)).count w =
        (c.idx.filter (fun i => (nonzero_weights wmx).getD i 0 == w)).length := by
      rw [List.count, List.countP_map, List.countP_eq_length_filter]
      rfl
    rw [h1, count_eq_length_filter_range]
    apply nodup_subset_length_le
    · exact c.idx_nodup.filter _
    · intro i hi
      rw [List.mem_filter] at hi ⊢
      exact ⟨List.mem_range.mpr (c.idx_lt i hi.1), hi.2⟩

/-- A concrete draw of 2 positions from the non-zero entries of a 2x2
matrix, used to instantiate the sampling theorem. -/
def choiceExample : NpChoiceNoReplace (nonzero_weights [[0, 2], [3, 0]]) 2 :=
  ⟨[1, 0], rfl, by decide, by decide⟩

theorem sampled_weights_from_nonzero_witness :
    choiceExample.sample.length = 2 ∧
    (∀ w ∈ choiceExample.sample,
      w ≠ 0 ∧ w ∈ ([[0, 2], [3, 0]] : List (List ℚ)).flatten) ∧
    (∀ w : ℚ, choiceExample.sample.count w ≤
      (nonzero_weights [[0, 2], [3, 0]]).count w) :=
  sampled_weights_from_nonzero [[0, 2], [3, 0]] 2 choiceExample
